import Mathlib

/-!
Verification development for the project-explorer similarity-search core.

The Python source (rag_service.py, rag_api.py, streamlit_app_production.py)
is shallowly embedded here:

* Python strings are `List Char`; `None`/NaN-able inputs are `Option (List Char)`.
* The TF-IDF pipeline of `ProjectRAGService` (scikit-learn
  `TfidfVectorizer(max_features=1000, stop_words='english', ngram_range=(1,2),
  min_df=1, max_df=0.95)` followed by `cosine_similarity`) is embedded with
  exact arithmetic.  The idf factor `ln((1+n)/(1+df)) + 1` is transcendental,
  so the development is parameterized by the idf weighting function
  `idf : ℕ → ℕ → ℤ` (number of documents, document frequency).  Cosine
  similarity is invariant under rescaling of a weight vector, so every
  positive rational idf weighting is realized by an integer one; universal
  theorems quantify over all idf functions and concrete corollaries
  instantiate an explicit positive surrogate.
* A cosine similarity value `dot/(‖u‖·‖v‖)` is represented exactly by the
  pair `Score.num = dot`, `Score.den = ‖u‖²·‖v‖²`, denoting the real number
  `num / √den`.  All comparisons the Python code performs on float
  similarities (sorting, the `> 0.01` threshold, the `0.7`/`0.4` complexity
  cut-offs) are decided exactly on this representation by cross-multiplying
  squares, which agrees with the real-number comparison because all
  pipeline values are nonnegative and the representation keeps `den > 0`.
-/

namespace ProjectExplorer

/-! ### Python string primitives -/

/-- The ASCII whitespace characters recognized by Python's `str.split()`,
`str.strip()` and by `\s` in the regexes of the source (the full Unicode
whitespace set is not needed by any claim). -/
def isPyWs (c : Char) : Bool :=
  c = ' ' || c = '\t' || c = '\n' || c = '\r' || c = '\x0b' || c = '\x0c'

/-- Python `str.lower()` (ASCII range; the source data is ASCII). -/
def pyLower (s : List Char) : List Char :=
  s.map Char.toLower

/-- Python `str.strip()`: drop leading and trailing whitespace. -/
def pyStrip (s : List Char) : List Char :=
  ((s.dropWhile isPyWs).reverse.dropWhile isPyWs).reverse

/-- Maximal runs of characters satisfying `keep`; the shared core of
Python `str.split()` and of the scikit-learn token pattern. -/
def charRuns (keep : Char → Bool) : List Char → List Char → List (List Char)
  | [], cur => if cur.isEmpty then [] else [cur.reverse]
  | c :: cs, cur =>
      if keep c then charRuns keep cs (c :: cur)
      else if cur.isEmpty then charRuns keep cs []
      else cur.reverse :: charRuns keep cs []

/-- Python `str.split()` with no argument: split on whitespace runs,
dropping empty fields. -/
def pySplit (s : List Char) : List (List Char) :=
  charRuns (fun c => !(isPyWs c)) s []

/-- `' '.join(tokens)`. -/
def joinSp (ts : List (List Char)) : List Char :=
  List.intercalate [' '] ts

/-! ### scikit-learn analyzer (token_pattern `\w\w+`, lowercase,
English stop words, ngram_range (1,2)) -/

/-- `\w` of the token pattern: letters, digits, underscore (ASCII). -/
def isWordChar (c : Char) : Bool :=
  c.isAlphanum || c = '_'

/-- Tokens per scikit-learn's default `token_pattern=r"(?u)\b\w\w+\b"`:
maximal word-character runs of length at least 2. -/
def wordTokens (s : List Char) : List (List Char) :=
  (charRuns isWordChar s []).filter (fun t => 2 ≤ t.length)

/-- scikit-learn's built-in `ENGLISH_STOP_WORDS` list
(`stop_words='english'` in the source configuration). -/
def englishStopWords : List (List Char) :=
  ([ "a", "about", "above", "across", "after", "afterwards", "again",
     "against", "all", "almost", "alone", "along", "already", "also",
     "although", "always", "am", "among", "amongst", "amoungst", "amount",
     "an", "and", "another", "any", "anyhow", "anyone", "anything",
     "anyway", "anywhere", "are", "around", "as", "at", "back", "be",
     "became", "because", "become", "becomes", "becoming", "been",
     "before", "beforehand", "behind", "being", "below", "beside",
     "besides", "between", "beyond", "bill", "both", "bottom", "but",
     "by", "call", "can", "cannot", "cant", "co", "con", "could",
     "couldnt", "cry", "de", "describe", "detail", "do", "done", "down",
     "due", "during", "each", "eg", "eight", "either", "eleven", "else",
     "elsewhere", "empty", "enough", "etc", "even", "ever", "every",
     "everyone", "everything", "everywhere", "except", "few", "fifteen",
     "fifty", "fill", "find", "fire", "first", "five", "for", "former",
     "formerly", "forty", "found", "four", "from", "front", "full",
     "further", "get", "give", "go", "had", "has", "hasnt", "have", "he",
     "hence", "her", "here", "hereafter", "hereby", "herein", "hereupon",
     "hers", "herself", "him", "himself", "his", "how", "however",
     "hundred", "i", "ie", "if", "in", "inc", "indeed", "interest",
     "into", "is", "it", "its", "itself", "keep", "last", "latter",
     "latterly", "least", "less", "ltd", "made", "many", "may", "me",
     "meanwhile", "might", "mill", "mine", "more", "moreover", "most",
     "mostly", "move", "much", "must", "my", "myself", "name", "namely",
     "neither", "never", "nevertheless", "next", "nine", "no", "nobody",
     "none", "noone", "nor", "not", "nothing", "now", "nowhere", "of",
     "off", "often", "on", "once", "one", "only", "onto", "or", "other",
     "others", "otherwise", "our", "ours", "ourselves", "out", "over",
     "own", "part", "per", "perhaps", "please", "put", "rather", "re",
     "same", "see", "seem", "seemed", "seeming", "seems", "serious",
     "several", "she", "should", "show", "side", "since", "sincere",
     "six", "sixty", "so", "some", "somehow", "someone", "something",
     "sometime", "sometimes", "somewhere", "still", "such", "system",
     "take", "ten", "than", "that", "the", "their", "them", "themselves",
     "then", "thence", "there", "thereafter", "thereby", "therefore",
     "therein", "thereupon", "these", "they", "thick", "thin", "third",
     "this", "those", "though", "three", "through", "throughout", "thru",
     "thus", "to", "together", "too", "top", "toward", "towards",
     "twelve", "twenty", "two", "un", "under", "until", "up", "upon",
     "us", "very", "via", "was", "we", "well", "were", "what", "whatever",
     "when", "whence", "whenever", "where", "whereafter", "whereas",
     "whereby", "wherein", "whereupon", "wherever", "whether", "which",
     "while", "whither", "who", "whoever", "whole", "whom", "whose",
     "why", "will", "with", "within", "without", "would", "yet", "you",
     "your", "yours", "yourself", "yourselves" ] : List String).map
    String.data

/-- Word n-grams for `ngram_range=(1, 2)`: the unigrams followed by the
bigrams of adjacent tokens joined by a single space, after stop-word
removal, exactly as scikit-learn's analyzer builds them. -/
def ngrams12 (toks : List (List Char)) : List (List Char) :=
  toks ++ List.zipWith (fun a b => a ++ [' '] ++ b) toks toks.tail

/-- The full analyzer of the fitted `TfidfVectorizer`: lowercase, extract
word tokens, drop English stop words, emit unigrams and bigrams. -/
def analyze (s : List Char) : List (List Char) :=
  ngrams12 ((wordTokens (pyLower s)).filter (fun t => t ∉ englishStopWords))

/-! ### Exact representation of cosine-similarity values

`cosine_similarity(u, v)` is `dot(u,v) / (‖u‖·‖v‖)` (scikit-learn
L2-normalizes both the TF-IDF rows and the query vector, so the net value
is exactly this quotient, with the convention that a zero-norm vector
yields similarity 0).  A value is stored as `num = dot(u,v)` and
`den = ‖u‖²·‖v‖²`, denoting the real `num / √den`. -/

structure Score where
  num : ℤ
  den : ℤ
  deriving DecidableEq

/-- The zero similarity value. -/
def score0 : Score := ⟨0, 1⟩

instance : Inhabited Score := ⟨score0⟩

/-- Build a similarity value from a dot product and the two squared norms.
When either norm is zero (so the product of squared norms is not positive)
the similarity is 0, matching scikit-learn's zero-norm guard; the dot
product is necessarily 0 in that case. -/
def mkScore (dot a b : ℤ) : Score :=
  if a * b ≤ 0 then score0 else ⟨dot, a * b⟩

def dotProd (u v : List ℤ) : ℤ :=
  (List.zipWith (fun x y => x * y) u v).sum

def sumSq (u : List ℤ) : ℤ :=
  (u.map (fun x => x * x)).sum

/-- `cosine_similarity` of two weight vectors, represented exactly. -/
def cosineSimilarity (u v : List ℤ) : Score :=
  mkScore (dotProd u v) (sumSq u) (sumSq v)

/-- The comparison `score > c` (for a rational constant `c ≥ 0`) that the
Python code performs on the float similarity: exact via cross-multiplied
squares, valid because `den > 0` for every constructed `Score`. -/
def Score.gtConst (s : Score) (c : ℚ) : Bool :=
  decide (0 < s.num) &&
    decide (c.num * c.num * s.den < (c.den : ℤ) * (c.den : ℤ) * (s.num * s.num))

/-- The filter threshold `similarities[idx] > 0.01` of
`find_similar_projects` ("Filter very low similarities"). -/
def minScoreThreshold : ℚ := mkRat 1 100

/-! ### numpy ranking: `similarities.argsort()[-limit:][::-1]` -/

/-- Strict comparison of two represented similarity values
(`a.num/√a.den < b.num/√b.den` cross-multiplied; exact for the
nonnegative values the pipeline produces). -/
def keyLt (a b : Score) : Prop :=
  a.num * a.num * b.den < b.num * b.num * a.den

/-- Equality of two represented similarity values, cross-multiplied. -/
def keyEq (a b : Score) : Prop :=
  a.num * a.num * b.den = b.num * b.num * a.den

instance : ∀ a b : Score, Decidable (keyLt a b) := fun a b => by
  unfold keyLt; infer_instance

instance : ∀ a b : Score, Decidable (keyEq a b) := fun a b => by
  unfold keyEq; infer_instance

/-- The order realized by `numpy.argsort` on the similarity array:
ascending by value, ties by original index (numpy's argsort is an
insertion sort — hence exactly this stable order — for the small arrays
of every scenario in this development; for larger arrays the tie order of
its introsort is unspecified, and this stable order is the model). -/
def argKey (sims : List Score) (i j : ℕ) : Prop :=
  keyLt (sims.getD i score0) (sims.getD j score0) ∨
    (keyEq (sims.getD i score0) (sims.getD j score0) ∧ i ≤ j)

instance : ∀ sims, DecidableRel (argKey sims) := fun sims i j => by
  unfold argKey; infer_instance

/-- `similarities.argsort()`: the corpus indices sorted ascending by
similarity. -/
def argsort (sims : List Score) : List ℕ :=
  List.insertionSort (argKey sims) (List.range sims.length)

/-- Python slice `l[-k:]`; note `l[-0:]` is the whole list. -/
def pyLastSlice (k : ℕ) (l : List α) : List α :=
  if k = 0 then l else l.drop (l.length - k)

/-- `top_indices = similarities.argsort()[-limit:][::-1]`. -/
def topIndices (sims : List Score) (limit : ℕ) : List ℕ :=
  (pyLastSlice limit (argsort sims)).reverse

/-! ### TF-IDF vocabulary fitting
(`TfidfVectorizer(max_features=1000, stop_words='english',
ngram_range=(1,2), min_df=1, max_df=0.95)`) -/

/-- Document frequency of a term: in how many analyzed documents it
occurs. -/
def docFreq (docsTerms : List (List (List Char))) (t : List Char) : ℕ :=
  docsTerms.countP (fun d => decide (t ∈ d))

/-- The `max_df=0.95` configuration value. -/
def maxDf : ℚ := mkRat 95 100

/-- The `min_df=1` configuration value. -/
def minDf : ℕ := 1

/-- The `max_features=1000` configuration value. -/
def maxFeatures : ℕ := 1000

/-- Lexicographic comparison of terms (the alphabetical feature order
produced by scikit-learn's vocabulary sorting). -/
def strLe : List Char → List Char → Bool
  | [], _ => true
  | _ :: _, [] => false
  | a :: as, b :: bs => if a = b then strLe as bs else decide (a < b)

def sortTerms (ts : List (List Char)) : List (List Char) :=
  List.insertionSort (fun a b => strLe a b = true) ts

/-- Total term frequency over the corpus, used by the `max_features`
selection. -/
def totalTf (docsTerms : List (List (List Char))) (t : List Char) : ℕ :=
  (docsTerms.map (fun d => d.count t)).sum

/-- `ValueError: empty vocabulary; ...` raised by scikit-learn when
fitting produces no terms at all (in particular on an empty corpus). -/
def emptyVocabMsg : List Char :=
  "empty vocabulary; perhaps the documents only contain stop words".data

/-- `ValueError` raised when the document-frequency limits prune every
term. -/
def prunedVocabMsg : List Char :=
  "After pruning, no terms remain. Try a lower min_df or a higher max_df.".data

/-- The `min_df`/`max_df`/`max_features` pruning (`_limit_features`):
keep terms with `minDf ≤ df` and `df ≤ 0.95·n` (comparison
cross-multiplied), then keep the `max_features` most frequent terms,
alphabetical order re-established among the kept terms. -/
def limitFeatures (docsTerms : List (List (List Char)))
    (vocab : List (List Char)) : List (List Char) :=
  let n := docsTerms.length
  let kept := vocab.filter (fun t =>
    decide (minDf ≤ docFreq docsTerms t) &&
      decide ((docFreq docsTerms t : ℤ) * maxDf.den ≤ maxDf.num * n))
  if kept.length ≤ maxFeatures then kept
  else
    sortTerms ((List.insertionSort
      (fun a b => totalTf docsTerms b ≤ totalTf docsTerms a) kept).take
        maxFeatures)

/-- Vocabulary fitting: collect the distinct analyzed terms, error on an
empty vocabulary, sort alphabetically, prune by document frequency,
error when pruning removes everything — the behavior of
`TfidfVectorizer.fit_transform` on the corpus. -/
def buildVocabulary (docsTerms : List (List (List Char))) :
    Except (List Char) (List (List Char)) :=
  let vocabAll := sortTerms docsTerms.flatten.dedup
  if vocabAll.isEmpty then .error emptyVocabMsg
  else
    let vocab := limitFeatures docsTerms vocabAll
    if vocab.isEmpty then .error prunedVocabMsg else .ok vocab

/-! ### The RAG service (rag_service.py) -/

/-- One row of the loaded dataframe after `load_data`'s `fillna` cleaning:
the three text fields are plain strings, the link/star fields may still be
missing (`NaN`). -/
structure ProjectRow where
  name : List Char := []
  description : List Char := []
  ai_summary : List Char := []
  github_url : Option (List Char) := none
  project_url : Option (List Char) := none
  demo_url : Option (List Char) := none
  github_stars : Option ℤ := none
  deriving DecidableEq

instance : Inhabited ProjectRow := ⟨{}⟩

/-- The per-row document text of `prepare_embeddings`: the AI summary if
nonblank, else the description, and finally the name if both are blank. -/
def textData (rows : List ProjectRow) : List (List Char) :=
  rows.map (fun row =>
    let text := if (pyStrip row.ai_summary).isEmpty then row.description
                else row.ai_summary
    if (pyStrip text).isEmpty then row.name else text)

/-- The fitted state of `ProjectRAGService`: the loaded rows, the fitted
vocabulary and the analyzed documents (from which the TF-IDF matrix is a
pure function, given an idf weighting). -/
structure ProjectRAGService where
  projects_df : List ProjectRow
  vocabulary : List (List Char)
  docs_terms : List (List (List Char))
  deriving DecidableEq

/-- `prepare_embeddings`: build the per-row document texts and fit the
vectorizer; fitting raises (is an `Except.error`) exactly when the
vocabulary comes up empty. -/
def prepare_embeddings (rows : List ProjectRow) :
    Except (List Char) ProjectRAGService :=
  let docsTerms := (textData rows).map analyze
  (buildVocabulary docsTerms).map (fun v => ⟨rows, v, docsTerms⟩)

/-- The TF-IDF weight vector of one analyzed text over the fitted
vocabulary: raw term count times the idf weight of the term's document
frequency (the idf function is the integer-valued weighting parameter;
see the file header). -/
def tfidfVec (idf : ℕ → ℕ → ℤ) (docsTerms : List (List (List Char)))
    (vocab : List (List Char)) (terms : List (List Char)) : List ℤ :=
  vocab.map (fun t =>
    (terms.count t : ℤ) * idf docsTerms.length (docFreq docsTerms t))

/-- `cosine_similarity(user_vector, tfidf_matrix).flatten()`: one
similarity per corpus document. -/
def similaritiesOf (svc : ProjectRAGService) (idf : ℕ → ℕ → ℤ)
    (user_idea : List Char) : List Score :=
  let qv := tfidfVec idf svc.docs_terms svc.vocabulary (analyze user_idea)
  svc.docs_terms.map (fun d =>
    cosineSimilarity qv (tfidfVec idf svc.docs_terms svc.vocabulary d))

def commaSpace : List Char := ", ".data

def sharedConceptsMsg : List Char := "Shared concepts: ".data

def semanticSimilarityMsg : List Char :=
  "Semantic similarity in project context".data

/-- The `common_words` of `_generate_match_reason`: the whitespace tokens
of the lowercased query that also occur among the tokens of the lowercased
`ai_summary + " " + description`, with tokens of length ≤ 3 dropped.
Python intersects two hash sets here, whose enumeration order is
unspecified; the model enumerates the intersection in the deduplicated
order of the query tokens. -/
def common_words (user_idea : List Char) (project : ProjectRow) :
    List (List Char) :=
  (((pySplit (pyLower user_idea)).dedup).filter
      (fun w => decide (w ∈ pySplit
        (pyLower (project.ai_summary ++ [' '] ++ project.description))))).filter
    (fun w => 3 < w.length)

/-- `_generate_match_reason`: up to the first three common words as
"Shared concepts", or the generic message when none survive. -/
def generate_match_reason (user_idea : List Char) (project : ProjectRow) :
    List Char :=
  if (common_words user_idea project).isEmpty then semanticSimilarityMsg
  else sharedConceptsMsg ++
    List.intercalate commaSpace ((common_words user_idea project).take 3)

/-- `_determine_complexity`: 'low' above similarity 0.7, 'medium' above
0.4, else 'high'. -/
def determine_complexity (s : Score) : List Char :=
  if s.gtConst (mkRat 7 10) then "low".data
  else if s.gtConst (mkRat 4 10) then "medium".data
  else "high".data

/-! ### `round(similarity * 100, 2)` -/

/-- One refinement step of the digit-pair integer square root: from the
square root `s` of `n / 4`, pick `2s+1` or `2s`. -/
def sqrtStep (n s : ℕ) : ℕ :=
  if (2 * s + 1) * (2 * s + 1) ≤ n then 2 * s + 1 else 2 * s

/-- Structurally recursive integer square root (fuel-based digit-pair
method); `sqrtFuel fuel n` is the integer square root of `n` whenever
`n ≤ fuel`. -/
def sqrtFuel : ℕ → ℕ → ℕ
  | 0, _ => 0
  | fuel + 1, n =>
      if n = 0 then 0 else sqrtStep n (sqrtFuel fuel (n / 4))

/-- Integer square root. -/
def isqrt (n : ℕ) : ℕ := sqrtFuel n n

/-- Round `√(a/d)` to the integer `k` or `k + 1`, where `k` is the
integer square root of `a/d`: compare `4a` with `(2k+1)²d` (the square of
twice the half-way point), ties going to the even candidate (Python
banker's rounding). -/
def halfEvenPick (a d k : ℕ) : ℕ :=
  if 4 * a < (2 * k + 1) * (2 * k + 1) * d then k
  else if (2 * k + 1) * (2 * k + 1) * d < 4 * a then k + 1
  else if k % 2 = 0 then k else k + 1

/-- The integer nearest to `√(a/d)` (ties to even). -/
def roundHalfEvenSqrt (a d : ℕ) : ℕ :=
  halfEvenPick a d (isqrt (a / d))

/-- `round(similarity * 100, 2)` in hundredths: the integer nearest to
`10000 · num/√den`. -/
def roundCentis (s : Score) : ℕ :=
  roundHalfEvenSqrt (100000000 * (s.num * s.num).toNat) s.den.toNat

/-- The rescaled similarity score stored in each result:
`float(round(similarities[idx] * 100, 2))`, an exact rational here. -/
def similarityScoreOf (s : Score) : ℚ :=
  mkRat (roundCentis s) 100

/-! ### `find_similar_projects` -/

/-- One entry of the result list of `find_similar_projects`, with the
fields of the Python result dict. -/
structure RagResult where
  id : ℕ := 0
  name : List Char := []
  description : List Char := []
  ai_summary : List Char := []
  github_url : List Char := []
  project_url : List Char := []
  demo_url : List Char := []
  github_stars : ℤ := 0
  similarity_score : ℚ := 0
  match_reason : List Char := []
  integration_complexity : List Char := []
  deriving DecidableEq

instance : Inhabited RagResult := ⟨{}⟩

/-- The result dict built for index `idx` (the `pd.notna` guards become
`Option.getD`). -/
def buildResult (svc : ProjectRAGService) (sims : List Score)
    (user_idea : List Char) (i : ℕ) : RagResult :=
  let project := svc.projects_df.getD i {}
  { id := i
    name := project.name
    description := project.description
    ai_summary := project.ai_summary
    github_url := project.github_url.getD []
    project_url := project.project_url.getD []
    demo_url := project.demo_url.getD []
    github_stars := project.github_stars.getD 0
    similarity_score := similarityScoreOf (sims.getD i score0)
    match_reason := generate_match_reason user_idea project
    integration_complexity := determine_complexity (sims.getD i score0) }

/-- `ProjectRAGService.find_similar_projects(user_idea, limit)`: vectorize
the idea, rank all corpus documents by cosine similarity, keep the
`limit` best, drop those not above the 0.01 threshold, build the result
dicts. -/
def find_similar_projects (svc : ProjectRAGService) (idf : ℕ → ℕ → ℤ)
    (user_idea : List Char) (limit : ℕ := 5) : List RagResult :=
  let sims := similaritiesOf svc idf user_idea
  ((topIndices sims limit).filter
      (fun i => (sims.getD i score0).gtConst minScoreThreshold)).map
    (buildResult svc sims user_idea)

/-- An explicit positive integer idf surrogate (decreasing in the
document frequency, value 1 when a term occurs in every document, like
the true smoothed idf); used only to instantiate closed corollaries
whose statements are idf-independent. -/
def idfSurrogate (n df : ℕ) : ℤ := max 1 ((n : ℤ) - df + 1)

/-! ### rag_api.py: POST /api/similar-projects -/

/-- The parsed JSON body of a request (each key optional, as with
`data.get`). -/
structure ApiRequestData where
  idea : Option (List Char) := none
  limit : Option ℕ := none
  deriving DecidableEq

def apiBlankIdeaMsg : List Char := "Please provide an idea".data

def apiNoJsonMsg : List Char :=
  "'NoneType' object has no attribute 'get'".data

/-- The response produced by the route: HTTP status plus the JSON
payload fields used by the handler. -/
structure ApiResponse where
  status : ℕ := 200
  success : Option Bool := none
  error : Option (List Char) := none
  «matches» : List RagResult := []
  total_found : Option ℕ := none
  deriving DecidableEq

/-- The Flask route `find_similar_projects` of rag_api.py.  `data` is the
result of `request.get_json()` (`none` when there is no JSON body, in
which case `data.get` raises and the catch-all returns 500); `service`
abstracts `rag_service.find_similar_projects`, whose unexpected failures
are also mapped to 500 by the catch-all. -/
def similar_projects_route (data : Option ApiRequestData)
    (service : List Char → ℕ → Except (List Char) (List RagResult)) :
    ApiResponse :=
  match data with
  | none => { status := 500, error := some apiNoJsonMsg }
  | some d =>
      if (pyStrip (d.idea.getD [])).isEmpty then
        { status := 400, error := some apiBlankIdeaMsg }
      else
        match service (d.idea.getD []) (d.limit.getD 5) with
        | .error e => { status := 500, error := some e }
        | .ok results =>
            { status := 200
              success := some true
              «matches» := results
              total_found := some results.length }

/-! ### streamlit_app_production.py helpers -/

/-- The character class kept by `re.sub(r'[^a-zA-Z0-9\s]', ' ', text)`. -/
def keptByRegex (c : Char) : Bool :=
  c.isAlpha || c.isDigit || isPyWs c

/-- `preprocess_text` of streamlit_app_production.py: `''` for NaN/empty
input; otherwise lowercase, replace every character outside
`[a-zA-Z0-9\s]` by a space, and collapse/trim whitespace via
`' '.join(text.split())`. -/
def preprocess_text (text : Option (List Char)) : List Char :=
  match text with
  | none => []
  | some t =>
      if t.isEmpty then []
      else joinSp (pySplit ((pyLower t).map
        (fun c => if keptByRegex c then c else ' ')))

def httpsLit : List Char := "https://".data

def httpLit : List Char := "http://".data

def githubLit : List Char := "github.com/".data

/-- `[a-zA-Z0-9-]` (the owner segment of the GitHub URL patterns). -/
def isOwnerChar (c : Char) : Bool :=
  c.isAlphanum || c = '-'

/-- `[a-zA-Z0-9-_.]` (the repository segment). -/
def isRepoChar (c : Char) : Bool :=
  c.isAlphanum || c = '-' || c = '_' || c = '.'

/-- Match `github\.com/[a-zA-Z0-9-]+/[a-zA-Z0-9-_.]+` at the start of
`s`, returning the matched text (greedy runs; the character classes
exclude `/`, so the regex engine's greedy match is this maximal munch). -/
def matchGithubAt (s : List Char) : Option (List Char) :=
  if githubLit.isPrefixOf s then
    let rest := s.drop githubLit.length
    let owner := rest.takeWhile isOwnerChar
    if owner.isEmpty then none
    else
      match rest.drop owner.length with
      | '/' :: rest2 =>
          let repo := rest2.takeWhile isRepoChar
          if repo.isEmpty then none
          else some (githubLit ++ owner ++ ['/'] ++ repo)
      | _ => none
  else none

/-- Match `https?://github\.com/...` at the start of `s` (the optional
`s` with backtracking is equivalent to trying `https://` then
`http://`). -/
def matchHttpGithubAt (s : List Char) : Option (List Char) :=
  if httpsLit.isPrefixOf s then
    (matchGithubAt (s.drop httpsLit.length)).map (fun m => httpsLit ++ m)
  else if httpLit.isPrefixOf s then
    (matchGithubAt (s.drop httpLit.length)).map (fun m => httpLit ++ m)
  else none

/-- `re.search`: the match at the leftmost position where the pattern
matches. -/
def searchFirst (f : List Char → Option (List Char)) :
    List Char → Option (List Char)
  | [] => f []
  | s@(_ :: rest) =>
      match f s with
      | some m => some m
      | none => searchFirst f rest

/-- `extract_github_url` of streamlit_app_production.py: `None` for
NaN/empty input; else the first full-URL match, else the first bare
`github.com/...` match with the `https://` scheme prepended, else
`None`. -/
def extract_github_url (description : Option (List Char)) :
    Option (List Char) :=
  match description with
  | none => none
  | some d =>
      if d.isEmpty then none
      else
        match searchFirst matchHttpGithubAt d with
        | some url => some url
        | none =>
            match searchFirst matchGithubAt d with
            | some url => some (httpsLit ++ url)
            | none => none

/-! ## Invariants of the score representation -/

theorem sumSq_nonneg (u : List ℤ) : 0 ≤ sumSq u := by
  apply List.sum_nonneg
  intro x hx
  rcases List.mem_map.mp hx with ⟨y, _, rfl⟩
  exact mul_self_nonneg y

theorem mkScore_den_pos (dot a b : ℤ) : 0 < (mkScore dot a b).den := by
  unfold mkScore
  split
  · exact one_pos
  · simpa using lt_of_not_ge (by assumption)

theorem cosineSimilarity_den_pos (u v : List ℤ) :
    0 < (cosineSimilarity u v).den :=
  mkScore_den_pos _ _ _

theorem score0_den_pos : 0 < score0.den := one_pos

theorem sims_den_pos (svc : ProjectRAGService) (idf : ℕ → ℕ → ℤ)
    (q : List Char) (i : ℕ) :
    0 < ((similaritiesOf svc idf q).getD i score0).den := by
  rw [List.getD_eq_getElem?_getD]
  cases h : (similaritiesOf svc idf q)[i]? with
  | none => exact score0_den_pos
  | some s =>
      have hs : s ∈ similaritiesOf svc idf q := List.getElem?_mem h
      rcases List.mem_map.mp hs with ⟨d, _, rfl⟩
      exact cosineSimilarity_den_pos _ _

theorem dotProd_nonneg {u v : List ℤ} (hu : ∀ x ∈ u, 0 ≤ x)
    (hv : ∀ x ∈ v, 0 ≤ x) : 0 ≤ dotProd u v := by
  apply List.sum_nonneg
  intro x hx
  induction u generalizing v with
  | nil => simp [List.zipWith] at hx
  | cons a u ih =>
      cases v with
      | nil => simp [List.zipWith] at hx
      | cons b v =>
          rcases List.mem_cons.mp hx with h | h
          · subst h
            exact mul_nonneg (hu a (by simp)) (hv b (by simp))
          · exact ih (fun x hx => hu x (List.mem_cons_of_mem _ hx))
              (fun x hx => hv x (List.mem_cons_of_mem _ hx)) h

theorem tfidfVec_nonneg {idf : ℕ → ℕ → ℤ} (hidf : ∀ n d, 0 ≤ idf n d)
    (docsTerms : List (List (List Char))) (vocab : List (List Char))
    (terms : List (List Char)) :
    ∀ x ∈ tfidfVec idf docsTerms vocab terms, 0 ≤ x := by
  intro x hx
  rcases List.mem_map.mp hx with ⟨t, _, rfl⟩
  exact mul_nonneg (by positivity) (hidf _ _)

theorem mkScore_num_nonneg {dot : ℤ} (a b : ℤ) (h : 0 ≤ dot) :
    0 ≤ (mkScore dot a b).num := by
  unfold mkScore
  split
  · exact le_refl 0
  · exact h

theorem sims_num_nonneg (svc : ProjectRAGService) {idf : ℕ → ℕ → ℤ}
    (hidf : ∀ n d, 0 ≤ idf n d) (q : List Char) (i : ℕ) :
    0 ≤ ((similaritiesOf svc idf q).getD i score0).num := by
  rw [List.getD_eq_getElem?_getD]
  cases h : (similaritiesOf svc idf q)[i]? with
  | none => exact le_refl 0
  | some s =>
      have hs : s ∈ similaritiesOf svc idf q := List.getElem?_mem h
      rcases List.mem_map.mp hs with ⟨d, _, rfl⟩
      exact mkScore_num_nonneg _ _
        (dotProd_nonneg (tfidfVec_nonneg hidf _ _ _) (tfidfVec_nonneg hidf _ _ _))

/-! ## The argsort order -/

/-- The squared real value of a represented score, `num²/den`, as a
rational; used only in proofs to transfer the cross-multiplied integer
comparisons to a linear order. -/
def keyVal (s : Score) : ℚ := (s.num * s.num : ℤ) / (s.den : ℚ)

theorem keyLt_iff {a b : Score} (ha : 0 < a.den) (hb : 0 < b.den) :
    keyLt a b ↔ keyVal a < keyVal b := by
  unfold keyLt keyVal
  rw [div_lt_div_iff₀ (by positivity) (by positivity)]
  constructor
  · intro h; exact_mod_cast h
  · intro h; exact_mod_cast h

theorem keyEq_iff {a b : Score} (ha : 0 < a.den) (hb : 0 < b.den) :
    keyEq a b ↔ keyVal a = keyVal b := by
  unfold keyEq keyVal
  rw [div_eq_div_iff (by positivity) (by positivity)]
  constructor
  · intro h; exact_mod_cast h
  · intro h; exact_mod_cast h

theorem argKey_iff {sims : List Score}
    (hden : ∀ i, 0 < (sims.getD i score0).den) (i j : ℕ) :
    argKey sims i j ↔
      keyVal (sims.getD i score0) < keyVal (sims.getD j score0) ∨
        (keyVal (sims.getD i score0) = keyVal (sims.getD j score0) ∧ i ≤ j) := by
  unfold argKey
  rw [keyLt_iff (hden i) (hden j), keyEq_iff (hden i) (hden j)]

theorem argKey_total {sims : List Score}
    (hden : ∀ i, 0 < (sims.getD i score0).den) (i j : ℕ) :
    argKey sims i j ∨ argKey sims j i := by
  rw [argKey_iff hden, argKey_iff hden]
  rcases lt_trichotomy (keyVal (sims.getD i score0)) (keyVal (sims.getD j score0)) with h | h | h
  · exact Or.inl (Or.inl h)
  · rcases Nat.le_total i j with hij | hij
    · exact Or.inl (Or.inr ⟨h, hij⟩)
    · exact Or.inr (Or.inr ⟨h.symm, hij⟩)
  · exact Or.inr (Or.inl h)

theorem argKey_trans {sims : List Score}
    (hden : ∀ i, 0 < (sims.getD i score0).den) (i j k : ℕ)
    (hij : argKey sims i j) (hjk : argKey sims j k) : argKey sims i k := by
  rw [argKey_iff hden] at hij hjk ⊢
  rcases hij with h₁ | ⟨h₁, hle₁⟩ <;> rcases hjk with h₂ | ⟨h₂, hle₂⟩
  · exact Or.inl (h₁.trans h₂)
  · exact Or.inl (h₂ ▸ h₁)
  · exact Or.inl (h₁ ▸ h₂)
  · exact Or.inr ⟨h₁.trans h₂, hle₁.trans hle₂⟩

theorem argsort_perm (sims : List Score) :
    List.Perm (argsort sims) (List.range sims.length) :=
  List.perm_insertionSort _ _

theorem argsort_nodup (sims : List Score) : (argsort sims).Nodup :=
  ((argsort_perm sims).symm.nodup (List.nodup_range _))

theorem argsort_mem_iff (sims : List Score) (i : ℕ) :
    i ∈ argsort sims ↔ i < sims.length := by
  rw [(argsort_perm sims).mem_iff, List.mem_range]

theorem argsort_sorted (sims : List Score)
    (hden : ∀ i, 0 < (sims.getD i score0).den) :
    List.Sorted (argKey sims) (argsort sims) := by
  haveI : IsTotal ℕ (argKey sims) := ⟨argKey_total hden⟩
  haveI : IsTrans ℕ (argKey sims) := ⟨argKey_trans hden⟩
  exact List.sorted_insertionSort _ _

theorem pyLastSlice_sublist (k : ℕ) (l : List α) :
    (pyLastSlice k l).Sublist l := by
  unfold pyLastSlice
  split
  · exact List.Sublist.refl l
  · exact List.drop_sublist _ l

theorem topIndices_pairwise (sims : List Score) (limit : ℕ)
    (hden : ∀ i, 0 < (sims.getD i score0).den) :
    (topIndices sims limit).Pairwise (fun i j => argKey sims j i) := by
  apply List.pairwise_reverse.mpr
  exact ((argsort_sorted sims hden).sublist (pyLastSlice_sublist _ _))

theorem topIndices_nodup (sims : List Score) (limit : ℕ) :
    (topIndices sims limit).Nodup := by
  rw [topIndices, List.nodup_reverse]
  exact ((pyLastSlice_sublist _ _).nodup (argsort_nodup sims))

theorem topIndices_mem_lt (sims : List Score) (limit : ℕ) {i : ℕ}
    (h : i ∈ topIndices sims limit) : i < sims.length := by
  rw [topIndices, List.mem_reverse] at h
  exact (argsort_mem_iff sims i).mp ((pyLastSlice_sublist _ _).mem h)

/-! ## A small concrete corpus used by the closed corollaries -/

/-- Three loaded rows; the first two have identical summaries, so their
TF-IDF vectors — and hence their cosine similarities to any query — are
identical. -/
def rows3 : List ProjectRow :=
  [ { name := "Project Zero".data, ai_summary := "alpha beta".data },
    { name := "Project One".data, ai_summary := "alpha beta".data },
    { name := "Project Two".data, ai_summary := "gamma delta".data } ]

/-- The service fitted on `rows3`; `prepare_embeddings rows3` succeeds
with exactly this state. -/
def svc3 : ProjectRAGService :=
  (prepare_embeddings rows3).toOption.getD ⟨[], [], []⟩

/-! ## Results of `find_similar_projects`: the ids are the filtered top
indices -/

theorem find_similar_ids (svc : ProjectRAGService) (idf : ℕ → ℕ → ℤ)
    (q : List Char) (k : ℕ) :
    (find_similar_projects svc idf q k).map (fun r => r.id) =
      (topIndices (similaritiesOf svc idf q) k).filter
        (fun i => ((similaritiesOf svc idf q).getD i score0).gtConst
          minScoreThreshold) := by
  unfold find_similar_projects
  rw [List.map_map]
  exact List.map_id _

/-- Claim C1 (counterexample): on a corpus whose first two documents are
identical, querying with that same text gives the two documents the same
similarity value (the same exact representation, and the same reported
score of 100.0), yet `find_similar_projects` returns them as
`[id 1, id 0]` — the reverse of the original corpus order, not a
stable-by-corpus-order ranking. -/
theorem claim1_tie_preserved_cex :
    (similaritiesOf svc3 idfSurrogate ("alpha beta".data)).getD 0 score0 =
        (similaritiesOf svc3 idfSurrogate ("alpha beta".data)).getD 1 score0 ∧
    (find_similar_projects svc3 idfSurrogate ("alpha beta".data) 3).map
        (fun r => r.similarity_score) = [100, 100] ∧
    (find_similar_projects svc3 idfSurrogate ("alpha beta".data) 3).map
        (fun r => r.id) = [1, 0] := by
  refine ⟨by decide, by decide, by decide⟩

/-- Claim C1 (amended): the ranking of `find_similar_projects` is
deterministic and fully characterized — results are ordered by strictly
descending similarity, and candidates with identical similarity appear
in reverse corpus order (descending original index), because the code
reverses an ascending stable argsort (`argsort()[-limit:][::-1]`).  For
any later result `j` and earlier result `i` of the returned list,
`argKey sims j i` holds: `j`'s similarity is below `i`'s, or they are
equal and `j ≤ i`. -/
theorem claim1_tie_reverse_order (svc : ProjectRAGService)
    (idf : ℕ → ℕ → ℤ) (q : List Char) (k : ℕ) :
    ((find_similar_projects svc idf q k).map (fun r => r.id)).Pairwise
      (fun i j => argKey (similaritiesOf svc idf q) j i) := by
  rw [find_similar_ids]
  exact (topIndices_pairwise _ _ (sims_den_pos svc idf q)).sublist
    (List.filter_sublist _)

/-! ## Top-K cap and exact count (claim C2) -/

/-- The threshold comparison `similarity > c`, unfolded to its
cross-multiplied integer form. -/
theorem gtConst_true_iff (s : Score) (c : ℚ) :
    s.gtConst c = true ↔
      0 < s.num ∧
        c.num * c.num * s.den < (c.den : ℤ) * (c.den : ℤ) * (s.num * s.num) := by
  unfold Score.gtConst
  rw [Bool.and_eq_true, decide_eq_true_iff, decide_eq_true_iff]

/-- A candidate ranked at least as high as one that beats the threshold
also beats the threshold (for nonnegative similarity values). -/
theorem gtConst_of_argKey {sims : List Score}
    (hden : ∀ i, 0 < (sims.getD i score0).den)
    (hnum : ∀ i, 0 ≤ (sims.getD i score0).num)
    {c : ℚ} {i j : ℕ} (hk : argKey sims i j)
    (hi : (sims.getD i score0).gtConst c = true) :
    (sims.getD j score0).gtConst c = true := by
  set a := sims.getD i score0 with ha
  set b := sims.getD j score0 with hb
  rw [gtConst_true_iff] at hi ⊢
  obtain ⟨hi1, hi2⟩ := hi
  have horder : a.num * a.num * b.den ≤ b.num * b.num * a.den := by
    unfold argKey keyLt keyEq at hk
    rw [← ha, ← hb] at hk
    rcases hk with h | ⟨h, _⟩
    · exact le_of_lt h
    · exact le_of_eq h
  have hdi : 0 < a.den := by rw [ha]; exact hden i
  have hdj : 0 < b.den := by rw [hb]; exact hden j
  have hbpos : 0 < b.num := by
    have hj : 0 ≤ b.num := by rw [hb]; exact hnum j
    rcases hj.lt_or_eq with h | h
    · exact h
    · exfalso
      rw [← h] at horder
      simp only [mul_zero, zero_mul] at horder
      nlinarith [mul_pos (mul_pos hi1 hi1) hdj]
  refine ⟨hbpos, ?_⟩
  have hcd2 : (0 : ℤ) ≤ (c.den : ℤ) * (c.den : ℤ) := by positivity
  have h1 := mul_lt_mul_of_pos_right hi2 hdj
  have h2 := mul_le_mul_of_nonneg_left horder hcd2
  have hfinal : (c.num * c.num * b.den) * a.den <
      ((c.den : ℤ) * (c.den : ℤ) * (b.num * b.num)) * a.den := by
    nlinarith [h1, h2]
  exact (mul_lt_mul_right hdi).mp hfinal

theorem length_pyLastSlice_le {k : ℕ} (hk : 1 ≤ k) (l : List α) :
    (pyLastSlice k l).length ≤ k := by
  unfold pyLastSlice
  rw [if_neg (by omega)]
  rw [List.length_drop]
  omega

/-- The results of `find_similar_projects` are the threshold survivors of
the top indices; at most `limit` of them exist (for `limit ≥ 1`). -/
theorem length_filter_topIndices_le (sims : List Score) {k : ℕ}
    (hk : 1 ≤ k) (p : ℕ → Bool) :
    ((topIndices sims k).filter p).length ≤ k := by
  calc ((topIndices sims k).filter p).length
      ≤ (topIndices sims k).length := List.length_filter_le _ _
    _ = (pyLastSlice k (argsort sims)).length := by
        rw [topIndices, List.length_reverse]
    _ ≤ k := length_pyLastSlice_le hk _

/-- When fewer than `k` corpus documents beat the threshold, every one of
them survives into the last-`k` slice of the argsort. -/
theorem mem_pyLastSlice_of_threshold {sims : List Score} {k : ℕ}
    (hden : ∀ i, 0 < (sims.getD i score0).den)
    (hnum : ∀ i, 0 ≤ (sims.getD i score0).num)
    (hk : 1 ≤ k)
    (hcount : (List.range sims.length).countP
        (fun i => (sims.getD i score0).gtConst minScoreThreshold) < k)
    {i : ℕ} (hi : i < sims.length)
    (hpi : (sims.getD i score0).gtConst minScoreThreshold = true) :
    i ∈ pyLastSlice k (argsort sims) := by
  set p : ℕ → Bool :=
    fun i => (sims.getD i score0).gtConst minScoreThreshold with hp
  set A := argsort sims with hA
  have hlenA : A.length = sims.length :=
    (argsort_perm sims).length_eq.trans (List.length_range _)
  have hslice : pyLastSlice k A = A.drop (A.length - k) := by
    unfold pyLastSlice
    rw [if_neg (by omega)]
  rw [hslice]
  by_contra hnotin
  have hiA : i ∈ A := (argsort_mem_iff sims i).mpr hi
  have hsplit : A.take (A.length - k) ++ A.drop (A.length - k) = A :=
    List.take_append_drop _ _
  have hitake : i ∈ A.take (A.length - k) := by
    rcases List.mem_append.mp (by rw [hsplit]; exact hiA) with h | h
    · exact h
    · exact absurd h hnotin
  -- if k exceeds the corpus, nothing is dropped and `i` would be in the slice
  have hkn : k ≤ sims.length := by
    by_contra hkn
    rw [show A.length - k = 0 by omega] at hitake
    simp at hitake
  -- the sorted order relates every taken element to every dropped element
  have hsorted : (A.take (A.length - k) ++ A.drop (A.length - k)).Pairwise
      (argKey sims) := by
    rw [hsplit]
    exact argsort_sorted sims hden
  rcases List.pairwise_append.mp hsorted with ⟨_, _, hrel⟩
  -- every dropped element beats the threshold
  have hdropAll : ∀ y ∈ A.drop (A.length - k), p y = true := by
    intro y hy
    exact gtConst_of_argKey hden hnum (hrel i hitake y hy) hpi
  -- so `i` together with the dropped elements are k+1 distinct documents
  -- beating the threshold, contradicting the count hypothesis
  have hnodupA : (A.take (A.length - k) ++ A.drop (A.length - k)).Nodup := by
    rw [hsplit]
    exact argsort_nodup sims
  rcases List.nodup_append.mp hnodupA with ⟨_, hnodupDrop, hdisj⟩
  have hnodupL : (i :: A.drop (A.length - k)).Nodup := by
    rw [List.nodup_cons]
    exact ⟨fun h => hdisj hitake h, hnodupDrop⟩
  have hsubL : (i :: A.drop (A.length - k)) ⊆
      (List.range sims.length).filter p := by
    intro x hx
    rcases List.mem_cons.mp hx with rfl | hx
    · exact List.mem_filter.mpr ⟨List.mem_range.mpr hi, hpi⟩
    · refine List.mem_filter.mpr ⟨?_, hdropAll x hx⟩
      have : x ∈ A := (List.drop_sublist _ _).mem hx
      exact List.mem_range.mpr ((argsort_mem_iff sims x).mp this)
  have hlenle : (i :: A.drop (A.length - k)).length ≤
      ((List.range sims.length).filter p).length :=
    (List.Nodup.subperm hnodupL hsubL).length_le
  rw [List.length_cons, List.length_drop, hlenA,
    ← List.countP_eq_length_filter] at hlenle
  omega

/-- Claim C2: for every corpus, query and `limit ≥ 1`,
`find_similar_projects` returns at most `limit` results; and when fewer
corpus documents than `limit` beat the `> 0.01` threshold, it returns
exactly that smaller number of results (never padding, never failing).
The count of threshold-beating documents is expressed with the code's own
filter predicate over all corpus indices. -/
theorem claim2_topk_cap (svc : ProjectRAGService) (idf : ℕ → ℕ → ℤ)
    (q : List Char) (k : ℕ) (hidf : ∀ n d, 0 ≤ idf n d) (hk : 1 ≤ k) :
    (find_similar_projects svc idf q k).length ≤ k ∧
      ((List.range (similaritiesOf svc idf q).length).countP
          (fun i => ((similaritiesOf svc idf q).getD i score0).gtConst
            minScoreThreshold) < k →
        (find_similar_projects svc idf q k).length =
          (List.range (similaritiesOf svc idf q).length).countP
            (fun i => ((similaritiesOf svc idf q).getD i score0).gtConst
              minScoreThreshold)) := by
  have hlen : (find_similar_projects svc idf q k).length =
      ((topIndices (similaritiesOf svc idf q) k).filter
        (fun i => ((similaritiesOf svc idf q).getD i score0).gtConst
          minScoreThreshold)).length := by
    have := congrArg List.length (find_similar_ids svc idf q k)
    rwa [List.length_map] at this
  constructor
  · rw [hlen]
    exact length_filter_topIndices_le _ hk _
  · intro hcount
    rw [hlen]
    set sims := similaritiesOf svc idf q with hsims
    set p : ℕ → Bool :=
      fun i => (sims.getD i score0).gtConst minScoreThreshold with hp
    have hden := sims_den_pos svc idf q
    have hnum := sims_num_nonneg svc hidf q
    have hmemiff : ∀ x, x ∈ (topIndices sims k).filter p ↔
        x ∈ (List.range sims.length).filter p := by
      intro x
      constructor
      · intro hx
        rcases List.mem_filter.mp hx with ⟨hxt, hxp⟩
        exact List.mem_filter.mpr
          ⟨List.mem_range.mpr (topIndices_mem_lt sims k hxt), hxp⟩
      · intro hx
        rcases List.mem_filter.mp hx with ⟨hxr, hxp⟩
        refine List.mem_filter.mpr ⟨?_, hxp⟩
        rw [topIndices, List.mem_reverse]
        exact mem_pyLastSlice_of_threshold hden hnum hk hcount
          (List.mem_range.mp hxr) hxp
    have hperm : List.Perm ((topIndices sims k).filter p)
        ((List.range sims.length).filter p) :=
      (List.perm_ext_iff_of_nodup ((topIndices_nodup sims k).filter p)
        ((List.nodup_range _).filter p)).mpr hmemiff
    rw [hperm.length_eq, ← List.countP_eq_length_filter]

/-- Claim C2 (witness): on the three-document corpus, with limit 5 and a
query matched by only two documents above the threshold, exactly two
results (and at most five) are returned. -/
theorem claim2_topk_cap_witness :
    (find_similar_projects svc3 idfSurrogate ("alpha beta".data) 5).length ≤ 5 ∧
    (find_similar_projects svc3 idfSurrogate ("alpha beta".data) 5).length =
      (List.range (similaritiesOf svc3 idfSurrogate ("alpha beta".data)).length).countP
        (fun i => ((similaritiesOf svc3 idfSurrogate
          ("alpha beta".data)).getD i score0).gtConst minScoreThreshold) ∧
    (find_similar_projects svc3 idfSurrogate ("alpha beta".data) 5).length = 2 := by
  have hidf : ∀ n d, (0 : ℤ) ≤ idfSurrogate n d := fun n d =>
    le_trans zero_le_one (le_max_left 1 ((n : ℤ) - d + 1))
  have h := claim2_topk_cap svc3 idfSurrogate ("alpha beta".data) 5 hidf
    (by norm_num)
  exact ⟨h.1, h.2 (by decide), by decide⟩

/-! ## Score bounds and monotone ordering (claim C4) -/

/-- Cauchy–Schwarz for the list dot product. -/
theorem dotProd_sq_le (u v : List ℤ) :
    dotProd u v * dotProd u v ≤ sumSq u * sumSq v := by
  induction u generalizing v with
  | nil => simp [dotProd, sumSq]
  | cons a u ih =>
      cases v with
      | nil => simp [dotProd, sumSq]
      | cons b v =>
          have hd := ih v
          have hS := sumSq_nonneg u
          have hT := sumSq_nonneg v
          simp only [dotProd, sumSq, List.zipWith_cons_cons, List.map_cons,
            List.sum_cons] at hd hS hT ⊢
          set d := (List.zipWith (fun x y => x * y) u v).sum with hdd
          set S := (u.map (fun x => x * x)).sum with hSS
          set T := (v.map (fun x => x * x)).sum with hTT
          rcases hT.eq_or_lt with hT0 | hT0
          · have hST : S * T = 0 := by rw [← hT0]; ring
            have hd2 : d * d ≤ 0 := by linarith [hd, hST.le]
            have hd0 : d = 0 :=
              mul_self_eq_zero.mp (le_antisymm hd2 (mul_self_nonneg d))
            rw [hd0, ← hT0]
            nlinarith [mul_nonneg hS (mul_self_nonneg b)]
          · nlinarith [sq_nonneg (a * T - b * d), hd, hS, hT,
              mul_nonneg (sub_nonneg.mpr hd) (mul_self_nonneg b),
              mul_nonneg (sub_nonneg.mpr hd) (le_of_lt hT0)]

/-- Every represented cosine value is at most 1: `num² ≤ den`. -/
theorem cosineSimilarity_sq_le (u v : List ℤ) :
    (cosineSimilarity u v).num * (cosineSimilarity u v).num ≤
      (cosineSimilarity u v).den := by
  unfold cosineSimilarity mkScore
  split
  · simp [score0]
  · exact dotProd_sq_le u v

theorem sims_sq_le (svc : ProjectRAGService) (idf : ℕ → ℕ → ℤ)
    (q : List Char) (i : ℕ) :
    ((similaritiesOf svc idf q).getD i score0).num *
        ((similaritiesOf svc idf q).getD i score0).num ≤
      ((similaritiesOf svc idf q).getD i score0).den := by
  rw [List.getD_eq_getElem?_getD]
  cases h : (similaritiesOf svc idf q)[i]? with
  | none => simp [score0]
  | some s =>
      have hs : s ∈ similaritiesOf svc idf q := List.getElem?_mem h
      rcases List.mem_map.mp hs with ⟨d, _, rfl⟩
      exact cosineSimilarity_sq_le _ _

/-- The fuel-based square root is exact whenever the fuel covers the
input. -/
theorem sqrtFuel_spec : ∀ fuel n, n ≤ fuel →
    sqrtFuel fuel n * sqrtFuel fuel n ≤ n ∧
      n < (sqrtFuel fuel n + 1) * (sqrtFuel fuel n + 1) := by
  intro fuel
  induction fuel with
  | zero =>
      intro n hn
      have : n = 0 := by omega
      subst this
      simp [sqrtFuel]
  | succ fuel ih =>
      intro n hn
      rw [sqrtFuel]
      by_cases h0 : n = 0
      · subst h0; simp
      · rw [if_neg h0]
        have hrec := ih (n / 4) (by
          have : n / 4 < n := Nat.div_lt_self (by omega) (by omega)
          omega)
        set s := sqrtFuel fuel (n / 4) with hs
        have h1 : s * s ≤ n / 4 := hrec.1
        have h2 : n / 4 < (s + 1) * (s + 1) := hrec.2
        have hm1 : 4 * (n / 4) ≤ n := by omega
        have hm2 : n < 4 * (n / 4) + 4 := by omega
        have hup : n < (2 * s + 2) * (2 * s + 2) := by nlinarith [h2]
        have hlow : (2 * s) * (2 * s) ≤ n := by nlinarith [h1]
        unfold sqrtStep
        split
        · constructor
          · assumption
          · nlinarith [hup]
        · constructor
          · exact hlow
          · omega

theorem isqrt_spec (n : ℕ) :
    isqrt n * isqrt n ≤ n ∧ n < (isqrt n + 1) * (isqrt n + 1) :=
  sqrtFuel_spec n n le_rfl

theorem isqrt_le_isqrt {m n : ℕ} (h : m ≤ n) : isqrt m ≤ isqrt n := by
  have hm := isqrt_spec m
  have hn := isqrt_spec n
  by_contra hc
  have h1 : isqrt n + 1 ≤ isqrt m := by omega
  have h2 : (isqrt n + 1) * (isqrt n + 1) ≤ isqrt m * isqrt m :=
    Nat.mul_le_mul h1 h1
  omega

theorem halfEvenPick_bounds (a d k : ℕ) :
    k ≤ halfEvenPick a d k ∧ halfEvenPick a d k ≤ k + 1 := by
  unfold halfEvenPick
  split_ifs <;> omega

theorem roundHalfEvenSqrt_mono {a d a' d' : ℕ} (hd : 0 < d) (hd' : 0 < d')
    (h : a * d' ≤ a' * d) :
    roundHalfEvenSqrt a d ≤ roundHalfEvenSqrt a' d' := by
  have hdiv : a / d ≤ a' / d' := by
    have h1 : d * ((a / d) * d') ≤ d * a' := by
      calc d * ((a / d) * d') = (a / d) * d * d' := by ring
        _ ≤ a * d' := Nat.mul_le_mul_right _ (Nat.div_mul_le_self a d)
        _ ≤ a' * d := h
        _ = d * a' := by ring
    have h2 : (a / d) * d' ≤ a' := Nat.le_of_mul_le_mul_left h1 hd
    exact (Nat.le_div_iff_mul_le hd').mpr h2
  have hk : isqrt (a / d) ≤ isqrt (a' / d') := isqrt_le_isqrt hdiv
  unfold roundHalfEvenSqrt
  rcases hk.lt_or_eq with hlt | heq
  · have hb1 := halfEvenPick_bounds a d (isqrt (a / d))
    have hb2 := halfEvenPick_bounds a' d' (isqrt (a' / d'))
    omega
  · rw [← heq]
    set k := isqrt (a / d) with hkdef
    have htrans_le : (2 * k + 1) * (2 * k + 1) * d ≤ 4 * a →
        (2 * k + 1) * (2 * k + 1) * d' ≤ 4 * a' := by
      intro hx
      have h1 : ((2 * k + 1) * (2 * k + 1) * d') * d ≤ (4 * a') * d := by
        calc ((2 * k + 1) * (2 * k + 1) * d') * d
            = ((2 * k + 1) * (2 * k + 1) * d) * d' := by ring
          _ ≤ (4 * a) * d' := Nat.mul_le_mul_right _ hx
          _ = 4 * (a * d') := by ring
          _ ≤ 4 * (a' * d) := Nat.mul_le_mul_left _ h
          _ = (4 * a') * d := by ring
      exact Nat.le_of_mul_le_mul_right h1 hd
    have htrans_lt : (2 * k + 1) * (2 * k + 1) * d < 4 * a →
        (2 * k + 1) * (2 * k + 1) * d' < 4 * a' := by
      intro hx
      have h1 : ((2 * k + 1) * (2 * k + 1) * d') * d < (4 * a') * d := by
        have hstep : ((2 * k + 1) * (2 * k + 1) * d) * d' < (4 * a) * d' := by
          exact Nat.mul_lt_mul_of_lt_of_le hx (le_refl d') (by omega)
        calc ((2 * k + 1) * (2 * k + 1) * d') * d
            = ((2 * k + 1) * (2 * k + 1) * d) * d' := by ring
          _ < (4 * a) * d' := hstep
          _ = 4 * (a * d') := by ring
          _ ≤ 4 * (a' * d) := Nat.mul_le_mul_left _ h
          _ = (4 * a') * d := by ring
      exact Nat.lt_of_mul_lt_mul_right h1
    unfold halfEvenPick
    split_ifs with h1 h2 h3 h4 h5 h6 h7 h8 <;> omega

theorem roundHalfEvenSqrt_le {a d B : ℕ} (hd : 0 < d)
    (ha : a ≤ B * B * d) : roundHalfEvenSqrt a d ≤ B := by
  have hdiv : a / d ≤ B * B := by
    have h1 := Nat.div_le_div_right (c := d) ha
    calc a / d ≤ B * B * d / d := h1
      _ = B * B := Nat.mul_div_cancel _ hd
  have hk : isqrt (a / d) ≤ B := by
    have hspec := isqrt_spec (a / d)
    by_contra hc
    have h1 : B + 1 ≤ isqrt (a / d) := by omega
    have h2 : (B + 1) * (B + 1) ≤ isqrt (a / d) * isqrt (a / d) :=
      Nat.mul_le_mul h1 h1
    nlinarith [hspec.1]
  unfold roundHalfEvenSqrt halfEvenPick
  split_ifs with h1 h2 h3
  · exact hk
  · -- round-up in the strict case forces the root strictly below B
    have hx : ((2 * isqrt (a / d) + 1) * (2 * isqrt (a / d) + 1)) * d <
        ((2 * B) * (2 * B)) * d := by
      calc ((2 * isqrt (a / d) + 1) * (2 * isqrt (a / d) + 1)) * d
          = (2 * isqrt (a / d) + 1) * (2 * isqrt (a / d) + 1) * d := by ring
        _ < 4 * a := h2
        _ ≤ 4 * (B * B * d) := by omega
        _ = ((2 * B) * (2 * B)) * d := by ring
    have hsq : (2 * isqrt (a / d) + 1) * (2 * isqrt (a / d) + 1) <
        (2 * B) * (2 * B) := Nat.lt_of_mul_lt_mul_right hx
    have : 2 * isqrt (a / d) + 1 < 2 * B := by nlinarith [hsq]
    omega
  · exact hk
  · -- round-up at the exact half also forces the root below B
    have h4 : (2 * isqrt (a / d) + 1) * (2 * isqrt (a / d) + 1) * d = 4 * a := by
      omega
    have hx : ((2 * isqrt (a / d) + 1) * (2 * isqrt (a / d) + 1)) * d ≤
        ((2 * B) * (2 * B)) * d := by
      calc ((2 * isqrt (a / d) + 1) * (2 * isqrt (a / d) + 1)) * d
          = 4 * a := h4
        _ ≤ 4 * (B * B * d) := by omega
        _ = ((2 * B) * (2 * B)) * d := by ring
    have hsq : (2 * isqrt (a / d) + 1) * (2 * isqrt (a / d) + 1) ≤
        (2 * B) * (2 * B) := Nat.le_of_mul_le_mul_right hx hd
    have : 2 * isqrt (a / d) + 1 ≤ 2 * B := by nlinarith [hsq]
    omega

theorem roundCentis_mono {s t : Score} (hsd : 0 < s.den) (htd : 0 < t.den)
    (h : s.num * s.num * t.den ≤ t.num * t.num * s.den) :
    roundCentis s ≤ roundCentis t := by
  unfold roundCentis
  have e1 : ((s.num * s.num).toNat : ℤ) = s.num * s.num :=
    Int.toNat_of_nonneg (mul_self_nonneg _)
  have e2 : ((t.num * t.num).toNat : ℤ) = t.num * t.num :=
    Int.toNat_of_nonneg (mul_self_nonneg _)
  have e3 : (s.den.toNat : ℤ) = s.den := Int.toNat_of_nonneg (le_of_lt hsd)
  have e4 : (t.den.toNat : ℤ) = t.den := Int.toNat_of_nonneg (le_of_lt htd)
  apply roundHalfEvenSqrt_mono (by omega) (by omega)
  zify
  rw [e1, e2, e3, e4]
  nlinarith [h]

theorem roundCentis_le {s : Score} (hd : 0 < s.den)
    (hb : s.num * s.num ≤ s.den) : roundCentis s ≤ 10000 := by
  unfold roundCentis
  apply roundHalfEvenSqrt_le (by omega)
  calc 100000000 * (s.num * s.num).toNat
      ≤ 100000000 * s.den.toNat :=
        Nat.mul_le_mul_left _ (Int.toNat_le_toNat hb)
    _ = 10000 * 10000 * s.den.toNat := by norm_num

theorem similarityScoreOf_nonneg (s : Score) : 0 ≤ similarityScoreOf s := by
  rw [similarityScoreOf, Rat.mkRat_eq_div]
  positivity

theorem similarityScoreOf_le_100 {s : Score} (hd : 0 < s.den)
    (hb : s.num * s.num ≤ s.den) : similarityScoreOf s ≤ 100 := by
  rw [similarityScoreOf, Rat.mkRat_eq_div]
  rw [div_le_iff₀ (by norm_num)]
  have h := roundCentis_le hd hb
  push_cast
  have h2 : ((roundCentis s : ℕ) : ℚ) ≤ 10000 := by exact_mod_cast h
  linarith

theorem similarityScoreOf_mono {s t : Score} (hsd : 0 < s.den)
    (htd : 0 < t.den) (h : s.num * s.num * t.den ≤ t.num * t.num * s.den) :
    similarityScoreOf s ≤ similarityScoreOf t := by
  rw [similarityScoreOf, similarityScoreOf, Rat.mkRat_eq_div,
    Rat.mkRat_eq_div]
  gcongr
  exact_mod_cast roundCentis_mono hsd htd h

/-- Claim C4: every similarity score returned by `find_similar_projects`
lies in `[0, 100]` (the raw cosine values lie in `[0, 1]`: their
representation satisfies `0 ≤ num` and `num² ≤ den`), and the scores are
monotonically non-increasing from the first result to the last. -/
theorem claim4_score_bounds_sorted (svc : ProjectRAGService)
    (idf : ℕ → ℕ → ℤ) (q : List Char) (k : ℕ)
    (hidf : ∀ n d, 0 ≤ idf n d) :
    (∀ s ∈ similaritiesOf svc idf q, 0 ≤ s.num ∧ s.num * s.num ≤ s.den) ∧
    (∀ r ∈ find_similar_projects svc idf q k,
        0 ≤ r.similarity_score ∧ r.similarity_score ≤ 100) ∧
    ((find_similar_projects svc idf q k).map
        (fun r => r.similarity_score)).Pairwise (fun x y => y ≤ x) := by
  refine ⟨?_, ?_, ?_⟩
  · intro s hs
    rcases List.mem_map.mp hs with ⟨d, _, rfl⟩
    exact ⟨mkScore_num_nonneg _ _
      (dotProd_nonneg (tfidfVec_nonneg hidf _ _ _) (tfidfVec_nonneg hidf _ _ _)),
      cosineSimilarity_sq_le _ _⟩
  · intro r hr
    unfold find_similar_projects at hr
    rcases List.mem_map.mp hr with ⟨i, _, rfl⟩
    refine ⟨similarityScoreOf_nonneg _, ?_⟩
    exact similarityScoreOf_le_100 (sims_den_pos svc idf q i)
      (sims_sq_le svc idf q i)
  · rw [show (find_similar_projects svc idf q k).map
        (fun r => r.similarity_score) =
        ((topIndices (similaritiesOf svc idf q) k).filter
          (fun i => ((similaritiesOf svc idf q).getD i score0).gtConst
            minScoreThreshold)).map
          (fun i => similarityScoreOf
            ((similaritiesOf svc idf q).getD i score0)) by
      unfold find_similar_projects
      rw [List.map_map]
      rfl]
    refine List.Pairwise.map _ ?_
      ((topIndices_pairwise _ _ (sims_den_pos svc idf q)).sublist
        (List.filter_sublist _))
    intro i j hk
    have hcross : ((similaritiesOf svc idf q).getD j score0).num *
        ((similaritiesOf svc idf q).getD j score0).num *
        ((similaritiesOf svc idf q).getD i score0).den ≤
        ((similaritiesOf svc idf q).getD i score0).num *
        ((similaritiesOf svc idf q).getD i score0).num *
        ((similaritiesOf svc idf q).getD j score0).den := by
      unfold argKey keyLt keyEq at hk
      rcases hk with h | ⟨h, _⟩
      · exact le_of_lt h
      · exact le_of_eq h
    exact similarityScoreOf_mono (sims_den_pos svc idf q j)
      (sims_den_pos svc idf q i) hcross

/-- Claim C4 (witness): the score bounds and ordering evaluated on the
three-document corpus; the first returned result's score is within
`[0, 100]` and the returned score list is non-increasing. -/
theorem claim4_score_bounds_sorted_witness :
    (0 ≤ ((find_similar_projects svc3 idfSurrogate
        ("alpha beta".data) 3).headD default).similarity_score ∧
      ((find_similar_projects svc3 idfSurrogate
        ("alpha beta".data) 3).headD default).similarity_score ≤ 100) ∧
    ((find_similar_projects svc3 idfSurrogate ("alpha beta".data) 3).map
        (fun r => r.similarity_score)).Pairwise (fun x y => y ≤ x) := by
  have hidf : ∀ n d, (0 : ℤ) ≤ idfSurrogate n d := fun n d =>
    le_trans zero_le_one (le_max_left 1 ((n : ℤ) - d + 1))
  have h := claim4_score_bounds_sorted svc3 idfSurrogate
    ("alpha beta".data) 3 hidf
  exact ⟨h.2.1 _ (by decide), h.2.2⟩

/-! ## Empty-query safety (claim C5) -/

theorem tfidfVec_sumSq_nil (idf : ℕ → ℕ → ℤ)
    (docsTerms : List (List (List Char))) (vocab : List (List Char)) :
    sumSq (tfidfVec idf docsTerms vocab []) = 0 := by
  unfold tfidfVec sumSq
  apply List.sum_eq_zero
  intro x hx
  rcases List.mem_map.mp hx with ⟨y, hy, rfl⟩
  rcases List.mem_map.mp hy with ⟨t, _, rfl⟩
  simp

/-- Claim C5: a query whose analyzed token list is empty (an empty or
whitespace-only or pure-punctuation idea) runs the whole pipeline without
error and yields the empty result list: its TF-IDF vector is the zero
vector, every cosine similarity is 0, and the `> 0.01` filter removes
everything. -/
theorem claim5_empty_query_safe (svc : ProjectRAGService)
    (idf : ℕ → ℕ → ℤ) (q : List Char) (k : ℕ) (hq : analyze q = []) :
    find_similar_projects svc idf q k = [] := by
  unfold find_similar_projects
  rw [List.map_eq_nil_iff]
  apply List.filter_eq_nil_iff.mpr
  intro i _
  suffices h : ((similaritiesOf svc idf q).getD i score0).gtConst
      minScoreThreshold = false by
    rw [h]
    simp
  have hzero : ∀ s ∈ similaritiesOf svc idf q, s = score0 := by
    intro s hs
    rcases List.mem_map.mp hs with ⟨d, _, rfl⟩
    unfold cosineSimilarity mkScore
    rw [hq, tfidfVec_sumSq_nil, if_pos (by simp)]
  have hi : (similaritiesOf svc idf q).getD i score0 = score0 := by
    rw [List.getD_eq_getElem?_getD]
    cases h : (similaritiesOf svc idf q)[i]? with
    | none => rfl
    | some s => exact hzero s (List.getElem?_mem h)
  rw [hi]
  decide

/-- Claim C5 (witness): the whitespace-only query on the concrete corpus
analyzes to no tokens and returns the empty list. -/
theorem claim5_empty_query_safe_witness :
    analyze ("   ".data) = [] ∧
      find_similar_projects svc3 idfSurrogate ("   ".data) 7 = [] :=
  ⟨by decide, claim5_empty_query_safe svc3 idfSurrogate _ 7 (by decide)⟩

/-! ## Empty-corpus fitting (claim C3) -/

/-- Claim C3: fitting the vector space on an empty corpus fails with
scikit-learn's descriptive `empty vocabulary` error, surfaced to the
caller as an `Except.error` — a signal distinct from the "no results"
outcome, which is an `Except.ok` service whose search returns an empty
list (exhibited here by a query sharing no vocabulary with a
successfully fitted corpus). -/
theorem claim3_empty_corpus_error_distinct :
    prepare_embeddings ([] : List ProjectRow) = Except.error emptyVocabMsg ∧
    emptyVocabMsg ≠ [] ∧
    prepare_embeddings rows3 = Except.ok svc3 ∧
    find_similar_projects svc3 idfSurrogate ("quantum ziggurat".data) 5 = [] := by
  refine ⟨by rfl, by decide, by rfl, by decide⟩

/-! ## Integration complexity (claim C10) -/

theorem determine_complexity_cases (s : Score) :
    (s.gtConst (mkRat 7 10) = true ∧ determine_complexity s = "low".data) ∨
    (s.gtConst (mkRat 7 10) = false ∧ s.gtConst (mkRat 4 10) = true ∧
      determine_complexity s = "medium".data) ∨
    (s.gtConst (mkRat 7 10) = false ∧ s.gtConst (mkRat 4 10) = false ∧
      determine_complexity s = "high".data) := by
  unfold determine_complexity
  cases hb1 : s.gtConst (mkRat 7 10) with
  | true => exact Or.inl ⟨rfl, by simp⟩
  | false =>
      cases hb2 : s.gtConst (mkRat 4 10) with
      | true => exact Or.inr (Or.inl ⟨rfl, rfl, by simp⟩)
      | false => exact Or.inr (Or.inr ⟨rfl, rfl, by simp⟩)

/-- Claim C10: every result of `find_similar_projects` carries an
`integration_complexity` that is exactly the `_determine_complexity` of
the raw cosine similarity of its corpus document: `'low'` when the raw
score exceeds 0.7, `'medium'` when it exceeds 0.4 but not 0.7, `'high'`
otherwise (the comparisons `gtConst (mkRat 7 10)` / `gtConst (mkRat 4 10)`
are the code's `score > 0.7` / `score > 0.4` in exact form). -/
theorem claim10_complexity (svc : ProjectRAGService) (idf : ℕ → ℕ → ℤ)
    (q : List Char) (k : ℕ) :
    ∀ r ∈ find_similar_projects svc idf q k,
      ∃ i, i < (similaritiesOf svc idf q).length ∧ r.id = i ∧
        r.integration_complexity =
          determine_complexity ((similaritiesOf svc idf q).getD i score0) ∧
        ((((similaritiesOf svc idf q).getD i score0).gtConst (mkRat 7 10) = true ∧
            r.integration_complexity = "low".data) ∨
          (((similaritiesOf svc idf q).getD i score0).gtConst (mkRat 7 10) = false ∧
            ((similaritiesOf svc idf q).getD i score0).gtConst (mkRat 4 10) = true ∧
            r.integration_complexity = "medium".data) ∨
          (((similaritiesOf svc idf q).getD i score0).gtConst (mkRat 7 10) = false ∧
            ((similaritiesOf svc idf q).getD i score0).gtConst (mkRat 4 10) = false ∧
            r.integration_complexity = "high".data)) := by
  intro r hr
  unfold find_similar_projects at hr
  rcases List.mem_map.mp hr with ⟨i, hi, rfl⟩
  have hit : i ∈ topIndices (similaritiesOf svc idf q) k :=
    (List.mem_filter.mp hi).1
  refine ⟨i, topIndices_mem_lt _ _ hit, rfl, rfl, ?_⟩
  have hdc : (buildResult svc (similaritiesOf svc idf q) q i).integration_complexity =
      determine_complexity ((similaritiesOf svc idf q).getD i score0) := rfl
  rcases determine_complexity_cases ((similaritiesOf svc idf q).getD i score0) with
    ⟨h1, h2⟩ | ⟨h1, h2, h3⟩ | ⟨h1, h2, h3⟩
  · exact Or.inl ⟨h1, by rw [hdc, h2]⟩
  · exact Or.inr (Or.inl ⟨h1, h2, by rw [hdc, h3]⟩)
  · exact Or.inr (Or.inr ⟨h1, h2, by rw [hdc, h3]⟩)

/-- Claim C10 (witness): the complexity trichotomy evaluated at the first
result of the concrete search. -/
theorem claim10_complexity_witness :
    ∃ i, i < (similaritiesOf svc3 idfSurrogate ("alpha beta".data)).length ∧
      ((find_similar_projects svc3 idfSurrogate
          ("alpha beta".data) 3).headD default).id = i ∧
      ((find_similar_projects svc3 idfSurrogate
          ("alpha beta".data) 3).headD default).integration_complexity =
        determine_complexity ((similaritiesOf svc3 idfSurrogate
          ("alpha beta".data)).getD i score0) ∧
      ((((similaritiesOf svc3 idfSurrogate
            ("alpha beta".data)).getD i score0).gtConst (mkRat 7 10) = true ∧
          ((find_similar_projects svc3 idfSurrogate
            ("alpha beta".data) 3).headD default).integration_complexity =
            "low".data) ∨
        (((similaritiesOf svc3 idfSurrogate
            ("alpha beta".data)).getD i score0).gtConst (mkRat 7 10) = false ∧
          ((similaritiesOf svc3 idfSurrogate
            ("alpha beta".data)).getD i score0).gtConst (mkRat 4 10) = true ∧
          ((find_similar_projects svc3 idfSurrogate
            ("alpha beta".data) 3).headD default).integration_complexity =
            "medium".data) ∨
        (((similaritiesOf svc3 idfSurrogate
            ("alpha beta".data)).getD i score0).gtConst (mkRat 7 10) = false ∧
          ((similaritiesOf svc3 idfSurrogate
            ("alpha beta".data)).getD i score0).gtConst (mkRat 4 10) = false ∧
          ((find_similar_projects svc3 idfSurrogate
            ("alpha beta".data) 3).headD default).integration_complexity =
            "high".data)) :=
  claim10_complexity svc3 idfSurrogate ("alpha beta".data) 3 _ (by decide)

/-! ## GitHub URL extraction (claim C7) -/

theorem searchFirst_some {f : List Char → Option (List Char)} :
    ∀ {s m : List Char}, searchFirst f s = some m → ∃ t, f t = some m := by
  intro s
  induction s with
  | nil =>
      intro m h
      exact ⟨[], h⟩
  | cons c cs ih =>
      intro m h
      unfold searchFirst at h
      cases hf : f (c :: cs) with
      | some m' =>
          rw [hf] at h
          exact ⟨c :: cs, hf.trans h⟩
      | none =>
          rw [hf] at h
          exact ih h

theorem matchHttpGithubAt_shape {s m : List Char}
    (h : matchHttpGithubAt s = some m) :
    ∃ m', m = httpsLit ++ m' ∨ m = httpLit ++ m' := by
  unfold matchHttpGithubAt at h
  split_ifs at h
  · rcases Option.map_eq_some'.mp h with ⟨m', _, rfl⟩
    exact ⟨m', Or.inl rfl⟩
  · rcases Option.map_eq_some'.mp h with ⟨m', _, rfl⟩
    exact ⟨m', Or.inr rfl⟩

/-- Claim C7: on `"Check it out: https://github.com/acme/widget"` the
annotator extracts exactly that URL; a bare `github.com/...` mention is
returned with the `https://` scheme prepended; `None`/empty input and
text with no GitHub mention yield `none` (never an exception — the model
is a total function — and never an empty string); and every extracted
value is a nonempty string starting with `http`. -/
theorem claim7_github_url_extraction :
    extract_github_url
        (some ("Check it out: https://github.com/acme/widget".data)) =
      some ("https://github.com/acme/widget".data) ∧
    extract_github_url
        (some ("See github.com/acme/widget for the code".data)) =
      some ("https://github.com/acme/widget".data) ∧
    extract_github_url none = none ∧
    extract_github_url (some []) = none ∧
    extract_github_url (some ("A chatbot project with no links".data)) =
      none ∧
    (∀ d u, extract_github_url d = some u →
      u ≠ [] ∧ u.take 4 = "http".data) := by
  refine ⟨by decide, by decide, rfl, by decide, by decide, ?_⟩
  intro d u h
  cases d with
  | none => exact absurd h (by simp [extract_github_url])
  | some t =>
      simp only [extract_github_url] at h
      split_ifs at h with ht
      cases h1 : searchFirst matchHttpGithubAt t with
      | some url =>
          rw [h1] at h
          rcases searchFirst_some h1 with ⟨w, hw⟩
          rcases matchHttpGithubAt_shape hw with ⟨m', hm | hm⟩
          · rw [Option.some_inj] at h
            subst h
            subst hm
            exact ⟨by simp [httpsLit], by rfl⟩
          · rw [Option.some_inj] at h
            subst h
            subst hm
            exact ⟨by simp [httpLit], by rfl⟩
      | none =>
          rw [h1] at h
          cases h2 : searchFirst matchGithubAt t with
          | some url =>
              rw [h2] at h
              rw [Option.some_inj] at h
              subst h
              exact ⟨by simp [httpsLit], by rfl⟩
          | none =>
              rw [h2] at h
              exact absurd h (by simp)

/-- Claim C7 (witness): the universal nonempty/scheme conjunct applied to
the concrete extraction. -/
theorem claim7_github_url_extraction_witness :
    ("https://github.com/acme/widget".data ≠ [] ∧
      ("https://github.com/acme/widget".data).take 4 = "http".data) :=
  claim7_github_url_extraction.2.2.2.2.2
    (some ("Check it out: https://github.com/acme/widget".data))
    ("https://github.com/acme/widget".data) (by decide)

/-! ## Match reason (claim C8) -/

/-- Modelled from the spec's words (claim C8 describes tokens taken
"after normalization"): the token list the claim describes, drawn from
the normalized text — lowercased, with every character outside
`[a-zA-Z0-9\s]` replaced by a space, then split on whitespace — instead
of from the raw lowercased string the code actually splits. -/
def claimedMatchTokens (t : List Char) : List (List Char) :=
  pySplit ((pyLower t).map (fun c => if keptByRegex c then c else ' '))

/-- Modelled from the spec's words: `common_words` as claim C8 describes
it, with both token sets taken after normalization. -/
def common_words_claimed (user_idea : List Char) (project : ProjectRow) :
    List (List Char) :=
  (((claimedMatchTokens user_idea).dedup).filter
      (fun w => decide (w ∈ claimedMatchTokens
        (project.ai_summary ++ [' '] ++ project.description)))).filter
    (fun w => 3 < w.length)

/-- Modelled from the spec's words: the match-reason heuristic as claim
C8 describes it — identical to `generate_match_reason` except that the
token sets come from the normalized texts. -/
def generate_match_reason_claimed (user_idea : List Char)
    (project : ProjectRow) : List Char :=
  if (common_words_claimed user_idea project).isEmpty then
    semanticSimilarityMsg
  else sharedConceptsMsg ++
    List.intercalate commaSpace
      ((common_words_claimed user_idea project).take 3)

/-- A punctuated query on which the code and the claimed behavior
disagree. -/
def query8 : List Char := "customer support!".data

/-- A concrete project row whose combined `ai_summary + " " +
description` text is `" support system"`. -/
def row8 : ProjectRow :=
  { name := "Support Desk".data, description := "support system".data }

/-- Claim C8 counterexample: `_generate_match_reason` applies no
normalization — it splits the raw lowercased strings — so on the query
"customer support!" against a project whose combined text is
" support system" the raw token "support!" matches nothing and the code
returns the generic "Semantic similarity in project context" message,
while the claimed normalize-then-tokenize behavior shares the token
"support" and reports "Shared concepts: support".  The behavior the
claim describes observably differs from the code. -/
theorem claim8_match_reason_cex :
    generate_match_reason query8 row8 = semanticSimilarityMsg ∧
    generate_match_reason_claimed query8 row8 =
      sharedConceptsMsg ++ "support".data ∧
    generate_match_reason query8 row8 ≠
      generate_match_reason_claimed query8 row8 := by
  decide

/-- Claim C8 (amended): the match-reason annotator lowercases and
whitespace-tokenizes the RAW query and the project's combined
`ai_summary + " " + description` — applying no normalization,
contrary to the claim's "after normalization" — intersects the two
token sets, discards tokens of length ≤ 3, and either reports between
one and three surviving shared tokens as "Shared concepts" or, exactly
when none survives, the generic "Semantic similarity in project
context" message.  It never errors (it is a total function). -/
theorem claim8_match_reason (user_idea : List Char) (project : ProjectRow) :
    (∃ ws, ws ≠ [] ∧ ws.length ≤ 3 ∧
        generate_match_reason user_idea project =
          sharedConceptsMsg ++ List.intercalate commaSpace ws ∧
        ∀ w ∈ ws, 3 < w.length ∧ w ∈ pySplit (pyLower user_idea) ∧
          w ∈ pySplit (pyLower (project.ai_summary ++ [' '] ++
            project.description))) ∨
    (generate_match_reason user_idea project = semanticSimilarityMsg ∧
      ∀ w, w ∈ pySplit (pyLower user_idea) →
        w ∈ pySplit (pyLower (project.ai_summary ++ [' '] ++
          project.description)) →
        w.length ≤ 3) := by
  unfold generate_match_reason
  by_cases hc : (common_words user_idea project).isEmpty
  · rw [if_pos hc]
    right
    refine ⟨rfl, ?_⟩
    intro w hwu hwp
    by_contra hlen
    have hwc : w ∈ common_words user_idea project := by
      unfold common_words
      refine List.mem_filter.mpr ⟨List.mem_filter.mpr
        ⟨List.mem_dedup.mpr hwu, by simpa using hwp⟩, by simpa using hlen⟩
    rw [List.isEmpty_iff] at hc
    rw [hc] at hwc
    exact absurd hwc (List.not_mem_nil w)
  · rw [if_neg hc]
    left
    refine ⟨(common_words user_idea project).take 3, ?_, ?_, rfl, ?_⟩
    · rw [List.isEmpty_iff] at hc
      cases h : common_words user_idea project with
      | nil => exact absurd h hc
      | cons a l => simp [h]
    · rw [List.length_take]
      omega
    · intro w hw
      have hwc : w ∈ common_words user_idea project := List.mem_of_mem_take hw
      unfold common_words at hwc
      rcases List.mem_filter.mp hwc with ⟨hw1, hw2⟩
      rcases List.mem_filter.mp hw1 with ⟨hw3, hw4⟩
      exact ⟨by simpa using hw2, List.mem_dedup.mp hw3, by simpa using hw4⟩

/-! ## HTTP façade (claim C9) -/

/-- Claim C9: the POST /api/similar-projects route returns 400 when the
supplied idea is blank (empty or whitespace-only after `strip()`), 500
with the error message when the service raises (including the
no-JSON-body case, where `data.get` itself raises), and otherwise 200
with `success = true`, the matches, and `total_found` equal to the number
of matches returned. -/
theorem claim9_api_route
    (service : List Char → ℕ → Except (List Char) (List RagResult)) :
    ((similar_projects_route none service).status = 500 ∧
      (similar_projects_route none service).error = some apiNoJsonMsg) ∧
    (∀ d, (pyStrip (d.idea.getD [])).isEmpty = true →
      similar_projects_route (some d) service =
        { status := 400, error := some apiBlankIdeaMsg }) ∧
    (∀ d e, (pyStrip (d.idea.getD [])).isEmpty = false →
      service (d.idea.getD []) (d.limit.getD 5) = .error e →
      similar_projects_route (some d) service =
        { status := 500, error := some e }) ∧
    (∀ d rs, (pyStrip (d.idea.getD [])).isEmpty = false →
      service (d.idea.getD []) (d.limit.getD 5) = .ok rs →
      (similar_projects_route (some d) service).status = 200 ∧
      (similar_projects_route (some d) service).success = some true ∧
      (similar_projects_route (some d) service).«matches» = rs ∧
      (similar_projects_route (some d) service).total_found =
        some rs.length) := by
  refine ⟨⟨rfl, rfl⟩, ?_, ?_, ?_⟩
  · intro d h
    simp only [similar_projects_route]
    rw [if_pos h]
  · intro d e h hsvc
    simp only [similar_projects_route]
    rw [if_neg (by simp [h]), hsvc]
  · intro d rs h hsvc
    simp only [similar_projects_route]
    rw [if_neg (by simp [h]), hsvc]
    exact ⟨rfl, rfl, rfl, rfl⟩

/-- Claim C9 (witness): the three outcomes at concrete requests and stub
services. -/
theorem claim9_api_route_witness :
    similar_projects_route (some { idea := some ("   ".data) })
        (fun _ _ => Except.ok []) =
      { status := 400, error := some apiBlankIdeaMsg } ∧
    similar_projects_route (some { idea := some ("build a chatbot".data) })
        (fun _ _ => Except.error ("boom".data)) =
      { status := 500, error := some ("boom".data) } ∧
    (similar_projects_route (some { idea := some ("build a chatbot".data) })
        (fun _ _ => Except.ok [])).status = 200 ∧
    (similar_projects_route (some { idea := some ("build a chatbot".data) })
        (fun _ _ => Except.ok [])).total_found = some 0 := by
  refine ⟨(claim9_api_route _).2.1 _ (by decide),
    (claim9_api_route _).2.2.1 _ _ (by decide) rfl, ?_, ?_⟩
  · exact ((claim9_api_route _).2.2.2 _ [] (by decide) rfl).1
  · exact ((claim9_api_route _).2.2.2 _ [] (by decide) rfl).2.2.2

/-! ## Text normalizer refinement (claim C6)

`preprocess_text` implements the collapse/trim steps as
`' '.join(text.split())`; the specification words them as "collapse runs
of whitespace to a single space; trim".  `normalizeSpec` below encodes
the specification's wording directly (a single pass with a
previous-character-was-whitespace flag, then a trim), and the refinement
theorem proves the two agree on every input. -/

/-- Drop trailing whitespace. -/
def trimEnd (s : List Char) : List Char :=
  (s.reverse.dropWhile isPyWs).reverse

/-- Collapse every whitespace run to a single space, tracking whether
the previous character was whitespace. -/
def collapseRuns : Bool → List Char → List Char
  | _, [] => []
  | prevWs, c :: cs =>
      if isPyWs c then
        if prevWs then collapseRuns true cs
        else ' ' :: collapseRuns true cs
      else c :: collapseRuns false cs

/-- The Text Normalizer as the specification words it: lowercase;
replace every character that is not a letter, digit, or whitespace with
a space; collapse runs of whitespace to a single space; trim. -/
def normalizeSpec (t : List Char) : List Char :=
  pyStrip (collapseRuns false ((pyLower t).map
    (fun c => if c.isAlpha || c.isDigit || isPyWs c then c else ' ')))

theorem charRuns_ne_nil (keep : Char → Bool) :
    ∀ (s cur t : List Char), t ∈ charRuns keep s cur → t ≠ [] := by
  intro s
  induction s with
  | nil =>
      intro cur t ht
      simp only [charRuns] at ht
      by_cases hcur : cur.isEmpty
      · rw [if_pos hcur] at ht
        exact absurd ht (List.not_mem_nil t)
      · rw [if_neg hcur] at ht
        rw [List.mem_singleton] at ht
        subst ht
        intro hc
        rw [List.reverse_eq_nil_iff] at hc
        rw [hc] at hcur
        simp at hcur
  | cons c cs ih =>
      intro cur t ht
      simp only [charRuns] at ht
      by_cases hk : keep c = true
      · rw [if_pos hk] at ht
        exact ih (c :: cur) t ht
      · rw [if_neg hk] at ht
        by_cases hcur : cur.isEmpty
        · rw [if_pos hcur] at ht
          exact ih [] t ht
        · rw [if_neg hcur] at ht
          rcases List.mem_cons.mp ht with rfl | h
          · intro hc
            rw [List.reverse_eq_nil_iff] at hc
            rw [hc] at hcur
            simp at hcur
          · exact ih [] t h

theorem joinSp_singleton (t : List Char) : joinSp [t] = t := by
  simp [joinSp, List.intercalate]

theorem joinSp_cons_cons (t u : List Char) (ts : List (List Char)) :
    joinSp (t :: u :: ts) = t ++ ' ' :: joinSp (u :: ts) := by
  simp [joinSp, List.intercalate, List.intersperse]

theorem joinSp_cons (t : List Char) (ts : List (List Char)) :
    joinSp (t :: ts) = t ++ (if ts.isEmpty then [] else ' ' :: joinSp ts) := by
  cases ts with
  | nil => simp [joinSp_singleton]
  | cons u ts' => simp [joinSp_cons_cons]

theorem joinSp_eq_nil_iff {keep : Char → Bool} (s : List Char) :
    joinSp (charRuns keep s []) = [] ↔ charRuns keep s [] = [] := by
  cases h : charRuns keep s [] with
  | nil => simp [joinSp, List.intercalate]
  | cons t ts =>
      have ht : t ≠ [] :=
        charRuns_ne_nil keep s [] t (h ▸ List.mem_cons_self t ts)
      constructor
      · intro hj
        rw [joinSp_cons] at hj
        rcases List.append_eq_nil.mp hj with ⟨ht0, _⟩
        exact absurd ht0 ht
      · intro h'
        exact absurd h' (List.cons_ne_nil t ts)

theorem trimEnd_cons_not_ws {c : Char} (h : isPyWs c = false)
    (X : List Char) : trimEnd (c :: X) = c :: trimEnd X := by
  unfold trimEnd
  rw [List.reverse_cons, List.dropWhile_append]
  by_cases hX : (X.reverse.dropWhile isPyWs).isEmpty
  · rw [if_pos hX]
    rw [List.isEmpty_iff] at hX
    rw [hX]
    simp [List.dropWhile, h]
  · rw [if_neg hX]
    simp

theorem trimEnd_cons_ws {c : Char} (h : isPyWs c = true) (X : List Char) :
    trimEnd (c :: X) =
      if (trimEnd X).isEmpty then [] else c :: trimEnd X := by
  unfold trimEnd
  rw [List.reverse_cons, List.dropWhile_append]
  by_cases hX : (X.reverse.dropWhile isPyWs).isEmpty
  · rw [if_pos hX, if_pos (by simp_all)]
    simp [List.dropWhile, h]
  · rw [if_neg hX, if_neg (by simp_all)]
    simp

theorem collapseRuns_true_head (s : List Char) :
    collapseRuns true s = [] ∨
      ∃ c cs, collapseRuns true s = c :: cs ∧ isPyWs c = false := by
  induction s with
  | nil => exact Or.inl rfl
  | cons c cs ih =>
      simp only [collapseRuns]
      by_cases h : isPyWs c = true
      · rw [if_pos h, if_pos trivial]
        exact ih
      · rw [if_neg h]
        exact Or.inr ⟨c, _, rfl, by simpa using h⟩

theorem dropWhile_collapseRuns_true (s : List Char) :
    (collapseRuns true s).dropWhile isPyWs = collapseRuns true s := by
  rcases collapseRuns_true_head s with h | ⟨c, cs, h, hc⟩
  · rw [h]
    rfl
  · rw [h]
    simp [List.dropWhile, hc]

/-- The key correspondence: joining the whitespace-separated runs equals
collapsing whitespace runs and trimming the end, both started either at
a run boundary (flag `true`, part 1) or inside a token (flag `false`,
part 2). -/
theorem runsCollapse (s : List Char) :
    trimEnd (collapseRuns true s) =
      joinSp (charRuns (fun c => !(isPyWs c)) s []) ∧
    ∀ tok, tok ≠ [] →
      joinSp (charRuns (fun c => !(isPyWs c)) s tok) =
        tok.reverse ++ trimEnd (collapseRuns false s) := by
  induction s with
  | nil =>
      constructor
      · rfl
      · intro tok htok
        simp only [charRuns]
        rw [if_neg (fun hh => htok (List.isEmpty_iff.mp hh))]
        rw [joinSp_singleton]
        simp [collapseRuns, trimEnd]
  | cons c cs ih =>
      obtain ⟨ihA, ihB⟩ := ih
      constructor
      · by_cases hw : isPyWs c = true
        · simp only [collapseRuns, charRuns]
          rw [if_pos hw, if_pos trivial, if_neg (by simp [hw]),
            if_pos List.isEmpty_nil]
          exact ihA
        · have hwf : isPyWs c = false := by simpa using hw
          simp only [collapseRuns, charRuns]
          rw [if_neg hw, if_pos (by simp [hwf]), trimEnd_cons_not_ws hwf,
            ihB [c] (by simp)]
          rfl
      · intro tok htok
        by_cases hw : isPyWs c = true
        · simp only [collapseRuns, charRuns]
          rw [if_pos hw, if_neg (by decide : ¬(false = true)),
            if_neg (by simp [hw]),
            if_neg (fun hh => htok (List.isEmpty_iff.mp hh))]
          rw [joinSp_cons, trimEnd_cons_ws (by decide : isPyWs ' ' = true),
            ihA]
          by_cases hE : charRuns (fun c => !(isPyWs c)) cs [] = []
          · rw [hE]
            simp [joinSp, List.intercalate]
          · have hj : joinSp (charRuns (fun c => !(isPyWs c)) cs []) ≠ [] :=
              fun hh => hE ((joinSp_eq_nil_iff cs).mp hh)
            rw [if_neg (fun hh => hE (List.isEmpty_iff.mp hh)),
              if_neg (fun hh => hj (List.isEmpty_iff.mp hh))]
        · have hwf : isPyWs c = false := by simpa using hw
          simp only [collapseRuns, charRuns]
          rw [if_pos (by simp [hwf]), if_neg hw,
            ihB (c :: tok) (List.cons_ne_nil c tok),
            trimEnd_cons_not_ws hwf, List.reverse_cons, List.append_assoc]
          rfl

theorem pyStrip_eq_trimEnd_dropWhile (l : List Char) :
    pyStrip l = trimEnd (l.dropWhile isPyWs) := rfl

/-- `' '.join(s.split())` equals collapse-runs-then-trim. -/
theorem joinSp_pySplit_eq (s : List Char) :
    joinSp (pySplit s) = pyStrip (collapseRuns false s) := by
  cases s with
  | nil => rfl
  | cons c cs =>
      by_cases hw : isPyWs c = true
      · unfold pySplit
        simp only [charRuns, collapseRuns]
        rw [if_neg (by simp [hw]), if_pos List.isEmpty_nil, if_pos hw,
          if_neg (by decide : ¬(false = true))]
        rw [pyStrip_eq_trimEnd_dropWhile,
          List.dropWhile_cons_of_pos (by decide),
          dropWhile_collapseRuns_true]
        exact (runsCollapse cs).1.symm
      · have hwf : isPyWs c = false := by simpa using hw
        unfold pySplit
        simp only [charRuns, collapseRuns]
        rw [if_pos (by simp [hwf]), if_neg hw,
          pyStrip_eq_trimEnd_dropWhile,
          List.dropWhile_cons_of_neg (by simp [hwf]),
          trimEnd_cons_not_ws hwf,
          (runsCollapse cs).2 [c] (by simp)]
        rfl



/-- Claim C6: the text normalizer returns `""` for null/empty input
without erroring, and on every input it equals the specification's
normalizer — lowercase, replace every character that is not a letter,
digit, or whitespace by a space, collapse whitespace runs to a single
space, trim.  It is a pure total function (no side effects). -/
theorem claim6_preprocess_text_spec :
    preprocess_text none = [] ∧ preprocess_text (some []) = [] ∧
      ∀ t, preprocess_text (some t) = normalizeSpec t := by
  refine ⟨rfl, rfl, ?_⟩
  intro t
  cases t with
  | nil => rfl
  | cons c cs =>
      simp only [preprocess_text]
      rw [if_neg (by simp)]
      exact joinSp_pySplit_eq _

end ProjectExplorer